import Mathlib

/-!
Verification of the namadaNFT repository: the NFT collection ledger
(`nft_contract`) and the minting client (`nft_client`).

The repository ships the unit tests of the ledger (`nft_contract/src/tests.rs`)
but not the ledger implementation itself; the ledger definitions below are
therefore modelled from the specification (its data model in section 3 and the
component contracts in section 4). The client definitions are embedded from
`nft_client/src/main.rs`, which is present in full.

Maps are modelled as association lists whose keys are unique (first-match
lookup), mirroring the hash maps of the source; `&mut self` methods are
modelled by returning the result value paired with the new state, and every
error path returns the state unchanged.
-/

namespace NftContract

/-- Opaque comparable account identifier (spec section 3: `Address`). -/
abbrev Address := Nat

/-- Opaque 32-byte content identifier, unique within a collection
(spec section 3: `TokenId`). -/
abbrev TokenId := Nat

/-- Unsigned fixed-width integer token quantity; arithmetic is
overflow-checked (spec section 3: `Amount`). Modelled as `Nat` with an
explicit bound `amountMax`. -/
abbrev Amount := Nat

/-- The largest representable `Amount` (u64 fixed width). -/
def amountMax : Nat := 2 ^ 64 - 1

/-- The largest value of the double-width intermediate used by `split`
(spec section 4.1: compute in double-width, downcast after the divide). -/
def intermediateMax : Nat := 2 ^ 128 - 1

/-- The largest basis-points argument (`u16` in the source signatures). -/
def u16Max : Nat := 65535

/-- Visibility levels of a privacy configuration (spec section 3). -/
inductive VisibilityLevel where
  | Public
  | Private
  | Restricted
deriving DecidableEq, Repr

/-- Modelled from the spec: `PrivacyConfig` (section 3); opaque to the
ledger beyond storage. -/
structure PrivacyConfig where
  encrypted : Bool
  encryptionKey : Option (List Nat)
  visibility : VisibilityLevel
deriving DecidableEq, Repr

/-- Modelled from the spec: `NftMetadata` (section 3). `tokenId` is a
placeholder at mint input and is overwritten by the ledger. -/
structure NftMetadata where
  tokenId : TokenId
  name : String
  description : Option String
  uri : Option String
  creator : Address
  attributes : List (String × String)
  transferable : Bool
  privacyConfig : Option PrivacyConfig
deriving DecidableEq, Repr

/-- Modelled from the spec: `RoyaltyConfig` (section 3): primary creator
share in basis points plus an ordered list of secondary recipients. -/
structure RoyaltyConfig where
  creator : Address
  royaltyPercentage : Nat
  secondaryRecipients : List (Address × Nat)
  royaltyToken : Option Address
deriving DecidableEq, Repr

/-- Closed error taxonomy of the ledger core (spec section 7). -/
inductive NftError where
  | Unauthorized
  | TokenNotFound
  | NotTransferable
  | InvalidRoyaltyConfig
  | InvalidFeeConfig
  | DuplicateToken
  | ArithmeticOverflow
deriving DecidableEq, Repr

/-- Modelled from the spec: `TransferOutcome` (section 3); a result value
returned to the caller, never persisted. -/
structure TransferOutcome where
  newOwner : Address
  royalties : Option (List (Address × Amount))
  programFee : Option (Address × Amount)
deriving DecidableEq, Repr

/-- Modelled from the spec: the aggregate root `NftCollection`
(section 3). The three per-token maps are association lists with unique
keys. -/
structure NftCollection where
  name : String
  feeCollector : Address
  feeBasisPoints : Nat
  tokenOwners : List (TokenId × Address)
  tokenMetadata : List (TokenId × NftMetadata)
  royaltyConfigs : List (TokenId × Option RoyaltyConfig)
deriving DecidableEq, Repr

/-- Execution context supplied per call by the surrounding
transaction-execution layer; carries the acting caller identity
(spec sections 2 and 6). -/
structure TxContext where
  caller : Address
deriving DecidableEq, Repr

/-- Decidable equality of `Except` results, for evaluating the operations
on concrete inputs. -/
instance {e a : Type} [DecidableEq e] [DecidableEq a] :
    DecidableEq (Except e a) := fun x y => by
  cases x <;> cases y
  case error.error u v => exact decidable_of_iff (u = v) (by simp)
  case error.ok u v => exact .isFalse (by simp)
  case ok.error u v => exact .isFalse (by simp)
  case ok.ok u v => exact decidable_of_iff (u = v) (by simp)

/-- First-match lookup in an association list (the map-read primitive). -/
def alookup {β : Type} : List (TokenId × β) → TokenId → Option β
  | [], _ => none
  | (k, v) :: rest, key => if k = key then some v else alookup rest key

/-- Replace the value stored at a key, preserving order and key set
(the map-write primitive used by `transfer`). -/
def aupdate {β : Type} : List (TokenId × β) → TokenId → β → List (TokenId × β)
  | [], _, _ => []
  | (k, v) :: rest, key, nv =>
      if k = key then (k, nv) :: rest else (k, v) :: aupdate rest key nv

/-- The key list of an association list. -/
def akeys {β : Type} (l : List (TokenId × β)) : List TokenId :=
  l.map Prod.fst

/-- Sum of the basis-point values of a secondary-recipient list. -/
def sumBps (l : List (Address × Nat)) : Nat :=
  (l.map Prod.snd).sum

/-- Sum of the amounts of an (address, amount) distribution list. -/
def sumAmounts (l : List (Address × Amount)) : Nat :=
  (l.map Prod.snd).sum

/-- Modelled from the spec: Basis-Point Math `split` (section 4.1):
`floor(amount * basis_points / 10000)` computed in a double-width
intermediate, failing with `ArithmeticOverflow` when the product cannot be
represented in the intermediate width or the quotient cannot be
represented in `Amount`. -/
def split (amount : Amount) (basisPoints : Nat) : Except NftError Amount :=
  let product := amount * basisPoints
  if intermediateMax < product then .error .ArithmeticOverflow
  else
    let q := product / 10000
    if amountMax < q then .error .ArithmeticOverflow else .ok q

/-- Overflow-checked addition on `Amount` (spec section 3: arithmetic over
`Amount` must be overflow-checked). -/
def checkedAdd (a b : Amount) : Except NftError Amount :=
  if amountMax < a + b then .error .ArithmeticOverflow else .ok (a + b)

/-- Checked subtraction on `Amount`: fails when the result would be
negative (spec section 4.3: any intermediate overflow aborts the whole
distribution). -/
def checkedSub (a b : Amount) : Except NftError Amount :=
  if a < b then .error .ArithmeticOverflow else .ok (a - b)

/-- Modelled from the spec: Authorization Guard `require_caller`
(section 4.2): pure equality check of an acting identity against a
required identity. -/
def require_caller (contextCaller required : Address) : Except NftError Unit :=
  if contextCaller = required then .ok () else .error .Unauthorized

/-- Split the sale price for each secondary recipient in configured order
(spec section 4.3 step 3); zero amounts are included, not filtered. -/
def splitRoyalties (salePrice : Amount) :
    List (Address × Nat) → Except NftError (List (Address × Amount))
  | [] => .ok []
  | (addr, bps) :: rest => do
      let amt ← split salePrice bps
      let tail ← splitRoyalties salePrice rest
      .ok ((addr, amt) :: tail)

/-- Overflow-checked sum of a distribution list. -/
def checkedSum : List (Address × Amount) → Except NftError Amount
  | [] => .ok 0
  | (_, a) :: rest => do
      let s ← checkedSum rest
      checkedAdd a s

/-- Modelled from the spec: the royalty part of the Royalty/Fee Splitter
(section 4.3 step 3): when a config is present, the primary creator share
first, then the secondary recipients in their configured order; zero
amounts are included, not filtered. -/
def royaltiesFor (salePrice : Amount) :
    Option RoyaltyConfig →
    Except NftError (Option (List (Address × Amount)))
  | none => .ok none
  | some rc => do
      let primary ← split salePrice rc.royaltyPercentage
      let secondaries ← splitRoyalties salePrice rc.secondaryRecipients
      .ok (some ((rc.creator, primary) :: secondaries))

/-- Modelled from the spec: the Royalty/Fee Splitter `distribute`
(section 4.3). With no sale price nothing is distributed; otherwise the
collection fee is always computed, the royalty list when a config is
present, and the remainder owner share is what is left of the sale price,
all overflow-checked and all-or-nothing. -/
def distribute (salePrice : Option Amount) (feeBasisPoints : Nat)
    (feeCollector : Address) (royaltyConfig : Option RoyaltyConfig) :
    Except NftError
      (Option (List (Address × Amount)) × Option (Address × Amount) × Amount) :=
  match salePrice with
  | none => .ok (none, none, 0)
  | some v => do
      let feeAmount ← split v feeBasisPoints
      let royalties ← royaltiesFor v royaltyConfig
      let roySum ← checkedSum (royalties.getD [])
      let paid ← checkedAdd feeAmount roySum
      let remainder ← checkedSub v paid
      .ok (royalties, some (feeCollector, feeAmount), remainder)

/-- Modelled from the spec: `NftCollection::new` (section 4.4): fails with
`InvalidFeeConfig` if `fee_basis_points > 10000`, otherwise returns an
aggregate with empty maps. -/
def NftCollection.new (name : String) (feeCollector : Address)
    (feeBasisPoints : Nat) : Except NftError NftCollection :=
  if 10000 < feeBasisPoints then .error .InvalidFeeConfig
  else .ok { name := name, feeCollector := feeCollector,
             feeBasisPoints := feeBasisPoints, tokenOwners := [],
             tokenMetadata := [], royaltyConfigs := [] }

/-- The percentage-sum invariant of a royalty config (spec section 3):
primary basis points plus the sum of the secondary basis points must not
exceed 10000. -/
def royaltyConfigValid : Option RoyaltyConfig → Bool
  | none => true
  | some rc => rc.royaltyPercentage + sumBps rc.secondaryRecipients ≤ 10000

/-- Modelled from the spec: `NftCollection::mint` (section 4.4): validate
the royalty config, derive a fresh `TokenId`, check for collision, then
atomically insert into all three maps with owner = `metadata.creator` and
the metadata's `token_id` overwritten by the derived id. The derivation
scheme is an open question of the spec (section 9) and is taken as an
explicit parameter required only to be collision-checked. Errors return
the collection unchanged. -/
def NftCollection.mint (derive : NftCollection → NftMetadata → TokenId)
    (c : NftCollection) (_ctx : TxContext) (metadata : NftMetadata)
    (royaltyConfig : Option RoyaltyConfig) :
    Except NftError TokenId × NftCollection :=
  if royaltyConfigValid royaltyConfig = false then
    (.error .InvalidRoyaltyConfig, c)
  else
    let tid := derive c metadata
    match alookup c.tokenOwners tid with
    | some _ => (.error .DuplicateToken, c)
    | none =>
        (.ok tid,
         { c with
             tokenOwners := c.tokenOwners ++ [(tid, metadata.creator)],
             tokenMetadata :=
               c.tokenMetadata ++ [(tid, { metadata with tokenId := tid })],
             royaltyConfigs := c.royaltyConfigs ++ [(tid, royaltyConfig)] })

/-- Modelled from the spec: `NftCollection::transfer` (section 4.4):
caller identity must equal `from`, `from` must equal the recorded owner,
the token must exist and be transferable, the splitter must succeed; only
then is the single committing write to `token_owners` performed. Every
failure returns the collection unchanged. -/
def NftCollection.transfer (c : NftCollection) (ctx : TxContext)
    (tokenId : TokenId) (fr dest : Address) (salePrice : Option Amount) :
    Except NftError TransferOutcome × NftCollection :=
  if ctx.caller ≠ fr then (.error .Unauthorized, c)
  else
    match alookup c.tokenOwners tokenId with
    | none => (.error .TokenNotFound, c)
    | some owner =>
        if fr ≠ owner then (.error .Unauthorized, c)
        else
          match alookup c.tokenMetadata tokenId with
          | none => (.error .TokenNotFound, c)
          | some md =>
              if md.transferable = false then (.error .NotTransferable, c)
              else
                match distribute salePrice c.feeBasisPoints c.feeCollector
                    ((alookup c.royaltyConfigs tokenId).getD none) with
                | .error e => (.error e, c)
                | .ok (royalties, fee, _remainder) =>
                    (.ok { newOwner := dest, royalties := royalties,
                           programFee := fee },
                     { c with tokenOwners := aupdate c.tokenOwners tokenId dest })

/-- Read-only query `owner_of` (spec section 4.4). -/
def NftCollection.owner_of (c : NftCollection) (tokenId : TokenId) :
    Option Address :=
  alookup c.tokenOwners tokenId

/-- Read-only query `metadata_of` (spec section 4.4). -/
def NftCollection.metadata_of (c : NftCollection) (tokenId : TokenId) :
    Option NftMetadata :=
  alookup c.tokenMetadata tokenId

/-- A mutating operation on a collection: the ledger is mutated only
through `mint` and `transfer` (spec section 3, lifecycle). -/
inductive Op where
  | mintOp (ctx : TxContext) (metadata : NftMetadata)
      (royaltyConfig : Option RoyaltyConfig)
  | transferOp (ctx : TxContext) (tokenId : TokenId) (fr dest : Address)
      (salePrice : Option Amount)

/-- The state after one mutating call (errors leave the state unchanged). -/
def applyOp (derive : NftCollection → NftMetadata → TokenId)
    (c : NftCollection) : Op → NftCollection
  | .mintOp ctx m rc => (c.mint derive ctx m rc).2
  | .transferOp ctx tid fr dest p => (c.transfer ctx tid fr dest p).2

/-- The state after a sequence of mutating calls. -/
def runOps (derive : NftCollection → NftMetadata → TokenId)
    (c : NftCollection) : List Op → NftCollection
  | [] => c
  | op :: rest => runOps derive (applyOp derive c op) rest

/-- Run a sequence of mint calls, collecting the token ids returned by the
successful ones (failed mints leave the state unchanged and return no id). -/
def mintChain (derive : NftCollection → NftMetadata → TokenId) :
    NftCollection → List (TxContext × NftMetadata × Option RoyaltyConfig) →
    List TokenId × NftCollection
  | c, [] => ([], c)
  | c, (ctx, m, rc) :: rest =>
      match c.mint derive ctx m rc with
      | (.ok tid, next) =>
          (tid :: (mintChain derive next rest).1, (mintChain derive next rest).2)
      | (.error _, next) => mintChain derive next rest

/-- Invariant 1 of the aggregate (spec section 3): the three maps share
exactly the same key set. -/
def sameKeySets (c : NftCollection) : Prop :=
  akeys c.tokenOwners = akeys c.tokenMetadata ∧
  akeys c.tokenOwners = akeys c.royaltyConfigs

/-- Invariant 2 of the aggregate (spec section 3): every stored royalty
config satisfies the percentage-sum invariant. -/
def storedConfigsValid (c : NftCollection) : Prop :=
  ∀ tid rc, alookup c.royaltyConfigs tid = some (some rc) →
    rc.royaltyPercentage + sumBps rc.secondaryRecipients ≤ 10000

end NftContract

namespace NftClient

/-- Transaction hash / token id as used by the client (`namada_core::hash::Hash`,
an opaque 32-byte value); modelled as `Nat`. -/
abbrev Hash := Nat

/-- Account address as used by the client. -/
abbrev Address := Nat

/-- Token amount as used by the client. -/
abbrev Amount := Nat

/-- The boxed error type of the client boundary
(`Box<dyn std::error::Error>`), erased to its message. -/
abbrev ClientError := String

/-- Token kinds returned by the node query (`nft_module::TokenType`). -/
inductive TokenType where
  | Nft
  | Other
deriving DecidableEq, Repr

/-- A token entry returned by `query_account_tokens`
(`nft_module::NftToken`). -/
structure NftToken where
  tokenId : Hash
  name : String
  tokenType : TokenType
deriving DecidableEq, Repr

/-- An NFT action carried by a transaction (`nft_module::NftAction`),
as built in `nft_client/src/main.rs`. -/
inductive NftAction where
  | Mint (collection : Address) (metadata : NftContract.NftMetadata)
      (royaltyConfig : Option NftContract.RoyaltyConfig)
  | Transfer (tokenId : Hash) (recipient : Address)
      (salePrice : Option Amount)

/-- A transaction under construction: a list of actions plus the signer
recorded by `sign` (`namada_sdk::Transaction`, modelled shallowly). -/
structure Transaction where
  actions : List NftAction
  signedBy : Option Address

/-- `Transaction::new()`: an empty, unsigned transaction. -/
def Transaction.new : Transaction :=
  { actions := [], signedBy := none }

/-- `Transaction::with_action`: append one action. -/
def Transaction.with_action (tx : Transaction) (a : NftAction) : Transaction :=
  { tx with actions := tx.actions ++ [a] }

/-- `Transaction::sign(&wallet)`: record the signing wallet. -/
def Transaction.sign (tx : Transaction) (walletAddr : Address) : Transaction :=
  { tx with signedBy := some walletAddr }

/-- A transaction status as reported by the awaited receipt;
`is_success()` reads the flag. -/
structure TxStatus where
  success : Bool

/-- `TxStatus::is_success()`. -/
def TxStatus.is_success (s : TxStatus) : Bool :=
  s.success

/-- The receipt returned by `wait_for_tx`. -/
structure TxReceipt where
  status : TxStatus

/-- The NFT minting client of `nft_client/src/main.rs`. The node behind
`NamadaClient` (submission, confirmation, account-token query) and the
wallet address are taken as components, so the client methods become pure
functions of the node's responses. -/
structure NftMintClient where
  submitTransaction : Transaction → Except ClientError Hash
  waitForTx : Hash → Except ClientError TxReceipt
  queryAccountTokens : Address → List NftToken
  walletAddress : Address

/-- The minting transaction built by `mint_nft` (main.rs lines 46-52). -/
def NftMintClient.mintTx (c : NftMintClient) (collectionAddress : Address)
    (metadata : NftContract.NftMetadata)
    (royaltyConfig : Option NftContract.RoyaltyConfig) : Transaction :=
  (Transaction.new.with_action
      (.Mint collectionAddress metadata royaltyConfig)).sign c.walletAddress

/-- `NftMintClient::mint_nft` (main.rs lines 39-63): submit the minting
transaction, await the receipt, and return the transaction hash exactly
when the receipt reports success. -/
def NftMintClient.mint_nft (c : NftMintClient) (collectionAddress : Address)
    (metadata : NftContract.NftMetadata)
    (royaltyConfig : Option NftContract.RoyaltyConfig) :
    Except ClientError Hash := do
  let tx := c.mintTx collectionAddress metadata royaltyConfig
  let txHash ← c.submitTransaction tx
  let receipt ← c.waitForTx txHash
  if receipt.status.is_success then .ok txHash
  else .error "NFT minting transaction failed"

/-- The token list computed by `get_wallet_nfts` (main.rs lines 67-71):
the wallet's account tokens filtered to those whose `token_type` is
`TokenType::Nft`. -/
def NftMintClient.wallet_nft_query (c : NftMintClient) : List NftToken :=
  (c.queryAccountTokens c.walletAddress).filter
    (fun token => token.tokenType == TokenType.Nft)

/-- `NftMintClient::get_wallet_nfts` (main.rs lines 66-73): query the
wallet's account tokens and keep exactly those whose `token_type` is
`TokenType::Nft`. -/
def NftMintClient.get_wallet_nfts (c : NftMintClient) :
    Except ClientError (List NftToken) :=
  .ok c.wallet_nft_query

/-- The transfer transaction built by `transfer_nft` (main.rs lines 82-88). -/
def NftMintClient.transferTx (c : NftMintClient) (tokenId : Hash)
    (recipient : Address) (salePrice : Option Amount) : Transaction :=
  (Transaction.new.with_action
      (.Transfer tokenId recipient salePrice)).sign c.walletAddress

/-- `NftMintClient::transfer_nft` (main.rs lines 76-98): submit the
transfer transaction, await the receipt, and return the transaction hash
exactly when the receipt reports success. -/
def NftMintClient.transfer_nft (c : NftMintClient) (tokenId : Hash)
    (recipient : Address) (salePrice : Option Amount) :
    Except ClientError Hash := do
  let tx := c.transferTx tokenId recipient salePrice
  let txHash ← c.submitTransaction tx
  let receipt ← c.waitForTx txHash
  if receipt.status.is_success then .ok txHash
  else .error "NFT transfer transaction failed"

end NftClient

namespace NftContract

/-! ### Concrete instances

Concrete states used to evaluate the operations, built after the scenario
of `nft_contract/src/tests.rs` and the concrete scenario of spec
section 8: collection fee 10 bps, royalty 500 bps plus one secondary
recipient at 250 bps, sale price 1 000 000. -/

/-- A deterministic derivation scheme for witnesses: the number of tokens
already minted (fresh because tokens are never removed). -/
def deriveCount : NftCollection → NftMetadata → TokenId :=
  fun c _ => c.tokenOwners.length

/-- Transferable sample metadata (creator is address 1). -/
def sampleMeta : NftMetadata :=
  { tokenId := 0, name := "Test NFT", description := none, uri := none,
    creator := 1, attributes := [("rarity", "rare")], transferable := true,
    privacyConfig := none }

/-- The royalty config of the spec scenario: 500 bps primary plus 250 bps
for the secondary recipient at address 5. -/
def sampleRoyalty : RoyaltyConfig :=
  { creator := 1, royaltyPercentage := 500,
    secondaryRecipients := [(5, 250)], royaltyToken := none }

/-- A one-token collection: fee collector 9 at 10 bps, token 0 owned by
address 1 with `sampleRoyalty` attached. -/
def sampleCollection : NftCollection :=
  { name := "Test Collection", feeCollector := 9, feeBasisPoints := 10,
    tokenOwners := [(0, 1)],
    tokenMetadata := [(0, sampleMeta)],
    royaltyConfigs := [(0, some sampleRoyalty)] }

/-- A collection with no tokens yet (the result of a valid `new`). -/
def emptyCollection : NftCollection :=
  { name := "Test Collection", feeCollector := 9, feeBasisPoints := 10,
    tokenOwners := [], tokenMetadata := [], royaltyConfigs := [] }

/-- The invalid royalty config of the spec scenario (section 8):
500 + 9600 = 10100 > 10000 basis points. -/
def badRoyalty : RoyaltyConfig :=
  { creator := 1, royaltyPercentage := 500,
    secondaryRecipients := [(7, 9600)], royaltyToken := none }

/-- Sample metadata marked non-transferable. -/
def frozenMeta : NftMetadata :=
  { sampleMeta with transferable := false }

/-- A one-token collection whose token 0 is non-transferable. -/
def frozenCollection : NftCollection :=
  { sampleCollection with
      tokenMetadata := [(0, frozenMeta)], royaltyConfigs := [(0, none)] }

/-- The transfer outcome of the spec scenario (section 8): fee 1000 to the
collector, royalties 50000 and 25000, new owner address 2. -/
def sampleOutcome : TransferOutcome :=
  { newOwner := 2, royalties := some [(1, 50000), (5, 25000)],
    programFee := some (9, 1000) }

/-- `sampleCollection` after the scenario transfer: token 0 now owned by
address 2. -/
def sampleAfter : NftCollection :=
  { sampleCollection with tokenOwners := [(0, 2)] }

end NftContract

namespace NftClient

/-- The node double of `nft_client/src/tests.rs`: submission returns the
fixed hash 1, confirmation reports success, and the account-token query
returns one NFT-typed token. -/
def dummyClient : NftMintClient :=
  { submitTransaction := fun _ => .ok 1,
    waitForTx := fun _ => .ok { status := { success := true } },
    queryAccountTokens := fun _ =>
      [{ tokenId := 1, name := "Dummy NFT", tokenType := TokenType.Nft }],
    walletAddress := 7 }

/-- A node double whose receipts report failure. -/
def failingClient : NftMintClient :=
  { dummyClient with waitForTx := fun _ => .ok { status := { success := false } } }

end NftClient

namespace NftContract

/-! ### Association-list lemmas -/

theorem alookup_append_of_some {β : Type} {l l2 : List (TokenId × β)}
    {k : TokenId} {v : β} (h : alookup l k = some v) :
    alookup (l ++ l2) k = some v := by
  induction l with
  | nil => simp [alookup] at h
  | cons hd tl ih =>
      obtain ⟨k0, v0⟩ := hd
      by_cases hk : k0 = k
      · simp [alookup, hk] at h ⊢
        exact h
      · simp [alookup, hk] at h ⊢
        exact ih h

theorem alookup_append_of_none {β : Type} {l : List (TokenId × β)}
    {k : TokenId} (h : alookup l k = none) (l2 : List (TokenId × β)) :
    alookup (l ++ l2) k = alookup l2 k := by
  induction l with
  | nil => simp
  | cons hd tl ih =>
      obtain ⟨k0, v0⟩ := hd
      by_cases hk : k0 = k
      · simp [alookup, hk] at h
      · simp [alookup, hk] at h ⊢
        exact ih h

theorem alookup_aupdate_ne {β : Type} (l : List (TokenId × β))
    {q k : TokenId} (nv : β) (h : q ≠ k) :
    alookup (aupdate l k nv) q = alookup l q := by
  induction l with
  | nil => simp [aupdate]
  | cons hd tl ih =>
      obtain ⟨k0, v0⟩ := hd
      by_cases hk : k0 = k
      · subst hk
        have hk0q : k0 ≠ q := fun hq => h hq.symm
        simp [aupdate, alookup, hk0q]
      · by_cases hq : k0 = q
        · subst hq
          simp [aupdate, alookup, hk]
        · simp [aupdate, alookup, hk, hq, ih]

theorem alookup_aupdate_self {β : Type} (l : List (TokenId × β))
    (k : TokenId) (nv : β) :
    alookup (aupdate l k nv) k = (alookup l k).map (fun _ => nv) := by
  induction l with
  | nil => simp [aupdate, alookup]
  | cons hd tl ih =>
      obtain ⟨k0, v0⟩ := hd
      by_cases hk : k0 = k
      · simp [aupdate, alookup, hk]
      · simp [aupdate, alookup, hk, ih]

theorem akeys_append {β : Type} (l l2 : List (TokenId × β)) :
    akeys (l ++ l2) = akeys l ++ akeys l2 := by
  simp [akeys]

theorem akeys_aupdate {β : Type} (l : List (TokenId × β)) (k : TokenId)
    (nv : β) : akeys (aupdate l k nv) = akeys l := by
  induction l with
  | nil => simp [aupdate]
  | cons hd tl ih =>
      obtain ⟨k0, v0⟩ := hd
      by_cases hk : k0 = k
      · simp [aupdate, akeys, hk]
      · simp [aupdate, akeys, hk]
        simpa [akeys] using ih

/-! ### Checked-arithmetic lemmas -/

theorem except_bind_ok {ε α β : Type} {x : Except ε α}
    {f : α → Except ε β} {b : β}
    (h : (x >>= f) = .ok b) : ∃ a, x = .ok a ∧ f a = .ok b := by
  cases x with
  | error e => simp [Bind.bind, Except.bind] at h
  | ok a => exact ⟨a, rfl, by simpa [Bind.bind, Except.bind] using h⟩

theorem checkedAdd_ok {a b s : Amount} (h : checkedAdd a b = .ok s) :
    s = a + b ∧ a + b ≤ amountMax := by
  unfold checkedAdd at h
  by_cases hc : amountMax < a + b
  · simp [hc] at h
  · simp [hc] at h
    exact ⟨h.symm, Nat.le_of_not_lt hc⟩

theorem checkedSub_ok {a b r : Amount} (h : checkedSub a b = .ok r) :
    b ≤ a ∧ r = a - b := by
  unfold checkedSub at h
  by_cases hc : a < b
  · simp [hc] at h
  · simp [hc] at h
    exact ⟨Nat.le_of_not_lt hc, h.symm⟩

theorem checkedSum_ok {l : List (Address × Amount)} {s : Amount}
    (h : checkedSum l = .ok s) : s = sumAmounts l := by
  induction l generalizing s with
  | nil =>
      simp [checkedSum] at h
      simp [sumAmounts, ← h]
  | cons hd tl ih =>
      obtain ⟨addr, a⟩ := hd
      unfold checkedSum at h
      obtain ⟨s0, hs0, hadd⟩ := except_bind_ok h
      obtain ⟨hsum, _⟩ := checkedAdd_ok hadd
      simp [sumAmounts] at ih ⊢
      rw [hsum, ih hs0]

theorem split_ok {a b q : Nat} (h : split a b = .ok q) :
    q = a * b / 10000 ∧ a * b ≤ intermediateMax ∧
    a * b / 10000 ≤ amountMax := by
  unfold split at h
  by_cases h1 : intermediateMax < a * b
  · simp [h1] at h
  · by_cases h2 : amountMax < a * b / 10000
    · simp [h1, h2] at h
    · simp [h1, h2] at h
      exact ⟨h.symm, Nat.le_of_not_lt h1, Nat.le_of_not_lt h2⟩

/-! ### Inversion lemmas for the splitter and the ledger operations -/

theorem distribute_some_ok {v : Amount} {f : Nat} {fc : Address}
    {rc : Option RoyaltyConfig} {roys : Option (List (Address × Amount))}
    {fee : Option (Address × Amount)} {rem : Amount}
    (h : distribute (some v) f fc rc = .ok (roys, fee, rem)) :
    ∃ feeAmt, fee = some (fc, feeAmt) ∧ split v f = .ok feeAmt ∧
      feeAmt + sumAmounts (roys.getD []) ≤ v ∧
      feeAmt + sumAmounts (roys.getD []) + rem = v := by
  unfold distribute at h
  obtain ⟨feeAmt, hsplit, h⟩ := except_bind_ok h
  obtain ⟨roys0, hroys, h⟩ := except_bind_ok h
  obtain ⟨s, hsum, h⟩ := except_bind_ok h
  obtain ⟨paid, hadd, h⟩ := except_bind_ok h
  obtain ⟨rem0, hsub, h⟩ := except_bind_ok h
  simp only [pure, Except.pure, Except.ok.injEq, Prod.mk.injEq] at h
  obtain ⟨hr, hf, hrem⟩ := h
  subst hr hf hrem
  obtain ⟨hpaid, _⟩ := checkedAdd_ok hadd
  obtain ⟨hle, hr0⟩ := checkedSub_ok hsub
  have hs : s = sumAmounts (roys0.getD []) := checkedSum_ok hsum
  subst hpaid hs hr0
  exact ⟨feeAmt, rfl, hsplit, hle, Nat.add_sub_cancel' hle⟩

theorem mint_ok_inv {derive : NftCollection → NftMetadata → TokenId}
    {c : NftCollection} {ctx : TxContext} {m : NftMetadata}
    {rc : Option RoyaltyConfig} {tid : TokenId} {c2 : NftCollection}
    (h : c.mint derive ctx m rc = (.ok tid, c2)) :
    royaltyConfigValid rc = true ∧ tid = derive c m ∧
    alookup c.tokenOwners tid = none ∧
    c2 = { c with
             tokenOwners := c.tokenOwners ++ [(tid, m.creator)],
             tokenMetadata := c.tokenMetadata ++ [(tid, { m with tokenId := tid })],
             royaltyConfigs := c.royaltyConfigs ++ [(tid, rc)] } := by
  unfold NftCollection.mint at h
  by_cases hv : royaltyConfigValid rc = false
  · simp [hv] at h
  · have hv2 : royaltyConfigValid rc = true := by
      cases hb : royaltyConfigValid rc
      · exact absurd hb hv
      · rfl
    cases hl : alookup c.tokenOwners (derive c m) with
    | some a => simp [hv2, hl] at h
    | none =>
        simp [hv2, hl, Prod.mk.injEq] at h
        obtain ⟨htid, hc2⟩ := h
        subst htid
        exact ⟨hv2, rfl, hl, hc2.symm⟩

theorem mint_error_snd {derive : NftCollection → NftMetadata → TokenId}
    {c : NftCollection} {ctx : TxContext} {m : NftMetadata}
    {rc : Option RoyaltyConfig} {e : NftError}
    (h : (c.mint derive ctx m rc).1 = .error e) :
    (c.mint derive ctx m rc).2 = c := by
  unfold NftCollection.mint at h ⊢
  by_cases hv : royaltyConfigValid rc = false
  · simp [hv]
  · have hv2 : royaltyConfigValid rc = true := by
      cases hb : royaltyConfigValid rc
      · exact absurd hb hv
      · rfl
    cases hl : alookup c.tokenOwners (derive c m) with
    | some a => simp [hv2, hl]
    | none => simp [hv2, hl] at h

theorem transfer_ok_inv {c : NftCollection} {ctx : TxContext} {tid : TokenId}
    {fr dest : Address} {price : Option Amount} {outcome : TransferOutcome}
    {c2 : NftCollection}
    (h : c.transfer ctx tid fr dest price = (.ok outcome, c2)) :
    ctx.caller = fr ∧ alookup c.tokenOwners tid = some fr ∧
    (∃ md, alookup c.tokenMetadata tid = some md ∧ md.transferable = true) ∧
    (∃ roys fee rem,
      distribute price c.feeBasisPoints c.feeCollector
        ((alookup c.royaltyConfigs tid).getD none) = .ok (roys, fee, rem) ∧
      outcome = { newOwner := dest, royalties := roys, programFee := fee }) ∧
    c2 = { c with tokenOwners := aupdate c.tokenOwners tid dest } := by
  unfold NftCollection.transfer at h
  by_cases hc : ctx.caller = fr
  · cases hl : alookup c.tokenOwners tid with
    | none => simp [hc, hl] at h
    | some owner =>
        by_cases ho : fr = owner
        · subst ho
          cases hm : alookup c.tokenMetadata tid with
          | none => simp [hc, hl, hm] at h
          | some md =>
              by_cases ht : md.transferable = false
              · simp [hc, hl, hm, ht] at h
              · have ht2 : md.transferable = true := by
                  cases hb : md.transferable
                  · exact absurd hb ht
                  · rfl
                cases hd : distribute price c.feeBasisPoints c.feeCollector
                    ((alookup c.royaltyConfigs tid).getD none) with
                | error e => simp [hc, hl, hm, ht2, hd] at h
                | ok triple =>
                    obtain ⟨roys, fee, rem⟩ := triple
                    simp [hc, hl, hm, ht2, hd, Prod.mk.injEq] at h
                    obtain ⟨hout, hc2⟩ := h
                    refine ⟨hc, rfl, ⟨md, rfl, ht2⟩,
                            ⟨roys, fee, rem, rfl, ?_⟩, ?_⟩
                    · exact hout.symm
                    · exact hc2.symm
        · simp [hc, hl, ho] at h
  · simp [hc] at h

theorem transfer_error_snd {c : NftCollection} {ctx : TxContext}
    {tid : TokenId} {fr dest : Address} {price : Option Amount} {e : NftError}
    (h : (c.transfer ctx tid fr dest price).1 = .error e) :
    (c.transfer ctx tid fr dest price).2 = c := by
  unfold NftCollection.transfer at h ⊢
  by_cases hc : ctx.caller = fr
  · cases hl : alookup c.tokenOwners tid with
    | none => simp [hc, hl]
    | some owner =>
        by_cases ho : fr = owner
        · subst ho
          cases hm : alookup c.tokenMetadata tid with
          | none => simp [hc, hl]
          | some md =>
              by_cases ht : md.transferable = false
              · simp [hc, hl, hm, ht]
              · have ht2 : md.transferable = true := by
                  cases hb : md.transferable
                  · exact absurd hb ht
                  · rfl
                cases hd : distribute price c.feeBasisPoints c.feeCollector
                    ((alookup c.royaltyConfigs tid).getD none) with
                | error e2 => simp [hc, hl, hm, ht2, hd]
                | ok triple =>
                    obtain ⟨roys, fee, rem⟩ := triple
                    simp [hc, hl, hm, ht2, hd] at h
        · simp [hc, hl, ho]
  · simp [hc]

/-- A transfer call never changes the metadata map, the royalty-config
map, or the collection configuration, whatever its result. -/
theorem transfer_snd_shape (c : NftCollection) (ctx : TxContext)
    (tid : TokenId) (fr dest : Address) (price : Option Amount) :
    (c.transfer ctx tid fr dest price).2 = c ∨
    (c.transfer ctx tid fr dest price).2 =
      { c with tokenOwners := aupdate c.tokenOwners tid dest } := by
  unfold NftCollection.transfer
  by_cases hc : ctx.caller = fr
  · cases hl : alookup c.tokenOwners tid with
    | none => simp [hc, hl]
    | some owner =>
        by_cases ho : fr = owner
        · subst ho
          cases hm : alookup c.tokenMetadata tid with
          | none => simp [hc, hl]
          | some md =>
              by_cases ht : md.transferable = false
              · simp [hc, hl, hm, ht]
              · have ht2 : md.transferable = true := by
                  cases hb : md.transferable
                  · exact absurd hb ht
                  · rfl
                cases hd : distribute price c.feeBasisPoints c.feeCollector
                    ((alookup c.royaltyConfigs tid).getD none) with
                | error e2 => simp [hc, hl, hm, ht2, hd]
                | ok triple =>
                    obtain ⟨roys, fee, rem⟩ := triple
                    simp [hc, hl, hm, ht2, hd]
        · simp [hc, hl, ho]
  · simp [hc]

/-! ### Persistence and invariant preservation -/

theorem pair_eta_fst {α β : Type} {p : α × β} {a : α} (h : p.1 = a) :
    p = (a, p.2) := by
  rw [← h]

theorem mint_metadata_persists
    {derive : NftCollection → NftMetadata → TokenId} {c : NftCollection}
    {tid : TokenId} {md : NftMetadata}
    (h : alookup c.tokenMetadata tid = some md) (ctx : TxContext)
    (m : NftMetadata) (rc : Option RoyaltyConfig) :
    alookup ((c.mint derive ctx m rc).2).tokenMetadata tid = some md := by
  cases hm : (c.mint derive ctx m rc).1 with
  | error e => rw [mint_error_snd hm]; exact h
  | ok tid2 =>
      obtain ⟨_, _, _, hc2⟩ := mint_ok_inv (pair_eta_fst hm)
      rw [hc2]
      exact alookup_append_of_some h

theorem mint_owner_persists
    {derive : NftCollection → NftMetadata → TokenId} {c : NftCollection}
    {t : TokenId} {a : Address} (h : alookup c.tokenOwners t = some a)
    (ctx : TxContext) (m : NftMetadata) (rc : Option RoyaltyConfig) :
    alookup ((c.mint derive ctx m rc).2).tokenOwners t = some a := by
  cases hm : (c.mint derive ctx m rc).1 with
  | error e => rw [mint_error_snd hm]; exact h
  | ok tid2 =>
      obtain ⟨_, _, _, hc2⟩ := mint_ok_inv (pair_eta_fst hm)
      rw [hc2]
      exact alookup_append_of_some h

theorem transfer_metadata_unchanged (c : NftCollection) (ctx : TxContext)
    (tid : TokenId) (fr dest : Address) (price : Option Amount) :
    ((c.transfer ctx tid fr dest price).2).tokenMetadata = c.tokenMetadata := by
  rcases transfer_snd_shape c ctx tid fr dest price with h | h <;> rw [h]

theorem applyOp_metadata_persists
    {derive : NftCollection → NftMetadata → TokenId} {c : NftCollection}
    {tid : TokenId} {md : NftMetadata}
    (h : alookup c.tokenMetadata tid = some md) (op : Op) :
    alookup ((applyOp derive c op).tokenMetadata) tid = some md := by
  cases op with
  | mintOp ctx m rc => exact mint_metadata_persists h ctx m rc
  | transferOp ctx t fr dest p =>
      show alookup ((c.transfer ctx t fr dest p).2).tokenMetadata tid = some md
      rw [transfer_metadata_unchanged]
      exact h

theorem runOps_metadata_persists
    {derive : NftCollection → NftMetadata → TokenId} {c : NftCollection}
    {tid : TokenId} {md : NftMetadata}
    (h : alookup c.tokenMetadata tid = some md) (ops : List Op) :
    alookup ((runOps derive c ops).tokenMetadata) tid = some md := by
  induction ops generalizing c with
  | nil => exact h
  | cons op rest ih => exact ih (applyOp_metadata_persists h op)

theorem applyOp_sameKeySets
    {derive : NftCollection → NftMetadata → TokenId} {c : NftCollection}
    (h : sameKeySets c) (op : Op) : sameKeySets (applyOp derive c op) := by
  obtain ⟨h1, h2⟩ := h
  cases op with
  | mintOp ctx m rc =>
      cases hm : (c.mint derive ctx m rc).1 with
      | error e =>
          show sameKeySets (c.mint derive ctx m rc).2
          rw [mint_error_snd hm]
          exact ⟨h1, h2⟩
      | ok tid2 =>
          obtain ⟨_, _, _, hc2⟩ := mint_ok_inv (pair_eta_fst hm)
          show sameKeySets (c.mint derive ctx m rc).2
          rw [hc2]
          constructor
          · simp only [akeys_append, h1]
            simp [akeys]
          · simp only [akeys_append, h2]
            simp [akeys]
  | transferOp ctx t fr dest p =>
      show sameKeySets (c.transfer ctx t fr dest p).2
      rcases transfer_snd_shape c ctx t fr dest p with hs | hs <;> rw [hs]
      · exact ⟨h1, h2⟩
      · exact ⟨by simp [akeys_aupdate, h1], by simp [akeys_aupdate, h2]⟩

theorem runOps_sameKeySets
    {derive : NftCollection → NftMetadata → TokenId} {c : NftCollection}
    (h : sameKeySets c) (ops : List Op) :
    sameKeySets (runOps derive c ops) := by
  induction ops generalizing c with
  | nil => exact h
  | cons op rest ih => exact ih (applyOp_sameKeySets h op)

end NftContract

namespace NftContract

theorem alookup_append_single_inv {β : Type} {l : List (TokenId × β)}
    {k q : TokenId} {v w : β}
    (h : alookup (l ++ [(k, v)]) q = some w) :
    alookup l q = some w ∨ (alookup l q = none ∧ k = q ∧ v = w) := by
  cases hl : alookup l q with
  | some x =>
      left
      have hx : alookup (l ++ [(k, v)]) q = some x := alookup_append_of_some hl
      rw [hx] at h
      exact h
  | none =>
      right
      have hx := alookup_append_of_none hl [(k, v)]
      rw [hx] at h
      by_cases hk : k = q
      · simp [alookup, hk] at h
        exact ⟨rfl, hk, h⟩
      · simp [alookup, hk] at h

theorem mint_ok_owner {derive : NftCollection → NftMetadata → TokenId}
    {c : NftCollection} {ctx : TxContext} {m : NftMetadata}
    {rc : Option RoyaltyConfig} {tid : TokenId} {c2 : NftCollection}
    (h : c.mint derive ctx m rc = (.ok tid, c2)) :
    alookup c.tokenOwners tid = none ∧
    alookup c2.tokenOwners tid = some m.creator := by
  obtain ⟨_, _, hfresh, hc2⟩ := mint_ok_inv h
  refine ⟨hfresh, ?_⟩
  rw [hc2]
  show alookup (c.tokenOwners ++ [(tid, m.creator)]) tid = some m.creator
  rw [alookup_append_of_none hfresh]
  simp [alookup]

theorem mintChain_fresh (derive : NftCollection → NftMetadata → TokenId) :
    ∀ (args : List (TxContext × NftMetadata × Option RoyaltyConfig))
      (c : NftCollection),
      (mintChain derive c args).1.Nodup ∧
      ∀ t, (alookup c.tokenOwners t).isSome = true →
        t ∉ (mintChain derive c args).1 := by
  intro args
  induction args with
  | nil => intro c; simp [mintChain]
  | cons arg rest ih =>
      intro c
      obtain ⟨ctx, m, rc⟩ := arg
      rcases hm : c.mint derive ctx m rc with ⟨res, cnext⟩
      cases res with
      | ok tid =>
          have hself := mint_ok_owner hm
          have hstep : mintChain derive c ((ctx, m, rc) :: rest) =
              (tid :: (mintChain derive cnext rest).1,
               (mintChain derive cnext rest).2) := by
            simp [mintChain, hm]
          rw [hstep]
          constructor
          · refine List.nodup_cons.mpr ⟨?_, (ih cnext).1⟩
            exact (ih cnext).2 tid (by rw [hself.2]; rfl)
          · intro t ht
            have hne : t ≠ tid := by
              intro he
              rw [he, hself.1] at ht
              simp at ht
            simp only [List.mem_cons]
            rintro (he | hmem)
            · exact hne he
            · rcases hs : alookup c.tokenOwners t with _ | a
              · rw [hs] at ht; simp at ht
              · have hnext : alookup cnext.tokenOwners t = some a := by
                  have hpers :
                      alookup ((c.mint derive ctx m rc).2).tokenOwners t =
                        some a := mint_owner_persists hs ctx m rc
                  rw [hm] at hpers
                  exact hpers
                exact (ih cnext).2 t (by rw [hnext]; rfl) hmem
      | error e =>
          have hcnext : cnext = c := by
            have herr : (c.mint derive ctx m rc).1 = .error e := by rw [hm]
            have hsnd := mint_error_snd herr
            rw [hm] at hsnd
            exact hsnd
          have hstep : mintChain derive c ((ctx, m, rc) :: rest) =
              mintChain derive cnext rest := by
            simp [mintChain, hm]
          rw [hstep, hcnext]
          exact ih c

end NftContract

namespace NftContract

/-! ### Claims -/

/-- C5: `NftCollection::new(name, fee_collector, fee_basis_points)` returns
`Err(InvalidFeeConfig)` whenever `fee_basis_points > 10000`, and otherwise
`Ok` of an aggregate whose `token_owners`, `token_metadata` and
`royalty_configs` maps are all empty. -/
theorem new_fee_gate_and_empty_maps (nm : String) (fc : Address) (bps : Nat) :
    (10000 < bps → NftCollection.new nm fc bps = .error .InvalidFeeConfig) ∧
    (bps ≤ 10000 →
      NftCollection.new nm fc bps =
        .ok { name := nm, feeCollector := fc, feeBasisPoints := bps,
              tokenOwners := [], tokenMetadata := [], royaltyConfigs := [] }) := by
  constructor
  · intro h
    simp [NftCollection.new, h]
  · intro h
    simp [NftCollection.new, Nat.not_lt.mpr h]

theorem new_fee_gate_and_empty_maps_witness :
    NftCollection.new "Over" 1 10001 = .error .InvalidFeeConfig ∧
    NftCollection.new "Test Collection" 9 10 =
      .ok { name := "Test Collection", feeCollector := 9, feeBasisPoints := 10,
            tokenOwners := [], tokenMetadata := [], royaltyConfigs := [] } :=
  ⟨(new_fee_gate_and_empty_maps "Over" 1 10001).1 (by decide),
   (new_fee_gate_and_empty_maps "Test Collection" 9 10).2 (by decide)⟩

/-- C7: `split(amount, basis_points)` returns
`floor(amount * basis_points / 10000)` computed exactly in the double-width
intermediate (floor rounding), and returns `Err(ArithmeticOverflow)`
exactly when the product is unrepresentable in the intermediate width or
the quotient is unrepresentable in `Amount`; under the `u64`/`u16` typing
bounds the intermediate product always fits. -/
theorem split_floor_characterization (amount bps : Nat) :
    (split amount bps = .error .ArithmeticOverflow ↔
      intermediateMax < amount * bps ∨ amountMax < amount * bps / 10000) ∧
    (amount * bps ≤ intermediateMax → amount * bps / 10000 ≤ amountMax →
      split amount bps = .ok (amount * bps / 10000)) ∧
    (amount ≤ amountMax → bps ≤ u16Max → amount * bps ≤ intermediateMax) := by
  refine ⟨⟨?_, ?_⟩, ?_, ?_⟩
  · intro h
    unfold split at h
    by_cases h1 : intermediateMax < amount * bps
    · exact Or.inl h1
    · by_cases h2 : amountMax < amount * bps / 10000
      · exact Or.inr h2
      · simp [h1, h2] at h
  · rintro (h1 | h2)
    · simp [split, h1]
    · by_cases h1 : intermediateMax < amount * bps
      · simp [split, h1]
      · simp [split, h1, h2]
  · intro h1 h2
    simp [split, Nat.not_lt.mpr h1, Nat.not_lt.mpr h2]
  · intro ha hb
    calc amount * bps ≤ amountMax * u16Max := Nat.mul_le_mul ha hb
      _ ≤ intermediateMax := by decide

theorem split_floor_characterization_witness :
    1000000 * 500 ≤ intermediateMax ∧ split 1000000 500 = .ok 50000 := by
  refine ⟨(split_floor_characterization 1000000 500).2.2 (by decide) (by decide), ?_⟩
  have h := (split_floor_characterization 1000000 500).2.1 (by decide) (by decide)
  norm_num at h
  exact h

/-- C2: for every collection state and every transfer call whose stated
`from` address differs from the currently recorded owner of the token,
`transfer` returns `Err(Unauthorized)` and the recorded owner is unchanged
afterward. -/
theorem transfer_unauthorized_noop (c : NftCollection) (ctx : TxContext)
    (tid : TokenId) (fr dest : Address) (price : Option Amount)
    (owner : Address) (hown : c.owner_of tid = some owner) (hne : fr ≠ owner) :
    (c.transfer ctx tid fr dest price).1 = .error .Unauthorized ∧
    (c.transfer ctx tid fr dest price).2 = c ∧
    ((c.transfer ctx tid fr dest price).2).owner_of tid = some owner := by
  have hown2 : alookup c.tokenOwners tid = some owner := hown
  have herr : (c.transfer ctx tid fr dest price).1 = .error .Unauthorized := by
    unfold NftCollection.transfer
    by_cases hc : ctx.caller = fr
    · simp [hc, hown2, hne]
    · simp [hc]
  have hsnd := transfer_error_snd herr
  exact ⟨herr, hsnd, by rw [hsnd]; exact hown⟩

theorem transfer_unauthorized_noop_witness :
    (sampleCollection.transfer ⟨3⟩ 0 3 2 (some 1000000)).1 =
      .error .Unauthorized ∧
    (sampleCollection.transfer ⟨3⟩ 0 3 2 (some 1000000)).2 = sampleCollection ∧
    ((sampleCollection.transfer ⟨3⟩ 0 3 2 (some 1000000)).2).owner_of 0 =
      some 1 :=
  transfer_unauthorized_noop sampleCollection ⟨3⟩ 0 3 2 (some 1000000) 1
    (by decide) (by decide)

/-- C4: `mint` returns `Err(InvalidRoyaltyConfig)` if and only if a royalty
config is present whose primary percentage plus the sum of the secondary
basis points exceeds 10000; and configs violating this sum are never
stored (validity of all stored configs is preserved). -/
theorem mint_royalty_gate (derive : NftCollection → NftMetadata → TokenId)
    (c : NftCollection) (ctx : TxContext) (m : NftMetadata)
    (rcOpt : Option RoyaltyConfig) :
    ((c.mint derive ctx m rcOpt).1 = .error .InvalidRoyaltyConfig ↔
      ∃ rc, rcOpt = some rc ∧
        10000 < rc.royaltyPercentage + sumBps rc.secondaryRecipients) ∧
    (storedConfigsValid c → storedConfigsValid (c.mint derive ctx m rcOpt).2) := by
  constructor
  · constructor
    · intro h
      by_cases hv : royaltyConfigValid rcOpt = false
      · cases rcOpt with
        | none => simp [royaltyConfigValid] at hv
        | some rc =>
            refine ⟨rc, rfl, ?_⟩
            simp [royaltyConfigValid] at hv
            exact hv
      · have hv2 : royaltyConfigValid rcOpt = true := by
          cases hb : royaltyConfigValid rcOpt
          · exact absurd hb hv
          · rfl
        unfold NftCollection.mint at h
        cases hl : alookup c.tokenOwners (derive c m) with
        | some a => simp [hv2, hl] at h
        | none => simp [hv2, hl] at h
    · rintro ⟨rc, hrc, hsum⟩
      subst hrc
      have hv : royaltyConfigValid (some rc) = false := by
        simp [royaltyConfigValid]
        exact hsum
      unfold NftCollection.mint
      simp [hv]
  · intro hstored
    cases hm : (c.mint derive ctx m rcOpt).1 with
    | error e =>
        rw [mint_error_snd hm]
        exact hstored
    | ok tid =>
        obtain ⟨hv, _, _, hc2⟩ := mint_ok_inv (pair_eta_fst hm)
        rw [hc2]
        intro t rc2 hl
        rcases alookup_append_single_inv hl with hold | ⟨_, _, hval⟩
        · exact hstored t rc2 hold
        · rw [hval] at hv
          simp [royaltyConfigValid] at hv
          exact hv

theorem mint_royalty_gate_witness :
    (emptyCollection.mint deriveCount ⟨1⟩ sampleMeta (some badRoyalty)).1 =
      .error .InvalidRoyaltyConfig ∧
    storedConfigsValid
      (emptyCollection.mint deriveCount ⟨1⟩ sampleMeta (some badRoyalty)).2 :=
  ⟨(mint_royalty_gate deriveCount emptyCollection ⟨1⟩ sampleMeta
      (some badRoyalty)).1.mpr ⟨badRoyalty, rfl, by decide⟩,
   (mint_royalty_gate deriveCount emptyCollection ⟨1⟩ sampleMeta
      (some badRoyalty)).2
     (by intro t rc h; simp [emptyCollection, alookup] at h)⟩

end NftContract

namespace NftContract

/-- C1: for every `transfer` call with `sale_price = Some(v)` that returns
`Ok`, the program fee amount plus the sum of all returned royalty amounts
plus the remainder owner share computed by the splitter equals `v`
exactly, with no overflow. -/
theorem transfer_conservation (c : NftCollection) (ctx : TxContext)
    (tid : TokenId) (fr dest : Address) (v : Amount)
    (outcome : TransferOutcome) (c2 : NftCollection)
    (h : c.transfer ctx tid fr dest (some v) = (.ok outcome, c2)) :
    ∃ feeAmt roys rem,
      outcome.programFee = some (c.feeCollector, feeAmt) ∧
      outcome.royalties = roys ∧
      distribute (some v) c.feeBasisPoints c.feeCollector
        ((alookup c.royaltyConfigs tid).getD none) =
        .ok (roys, some (c.feeCollector, feeAmt), rem) ∧
      feeAmt + sumAmounts (roys.getD []) ≤ v ∧
      feeAmt + sumAmounts (roys.getD []) + rem = v := by
  obtain ⟨_, _, _, hsplit, _⟩ := transfer_ok_inv h
  obtain ⟨roys, fee, rem, hd, hout⟩ := hsplit
  obtain ⟨feeAmt, hfee, _, hle, hcons⟩ := distribute_some_ok hd
  refine ⟨feeAmt, roys, rem, ?_, ?_, ?_, hle, hcons⟩
  · rw [hout]
    exact hfee
  · rw [hout]
  · rw [← hfee]
    exact hd

theorem transfer_conservation_witness :
    ∃ feeAmt roys rem,
      sampleOutcome.programFee = some (sampleCollection.feeCollector, feeAmt) ∧
      sampleOutcome.royalties = roys ∧
      distribute (some 1000000) sampleCollection.feeBasisPoints
        sampleCollection.feeCollector
        ((alookup sampleCollection.royaltyConfigs 0).getD none) =
        .ok (roys, some (sampleCollection.feeCollector, feeAmt), rem) ∧
      feeAmt + sumAmounts (roys.getD []) ≤ 1000000 ∧
      feeAmt + sumAmounts (roys.getD []) + rem = 1000000 :=
  transfer_conservation sampleCollection ⟨1⟩ 0 1 2 1000000 sampleOutcome
    sampleAfter (by decide)

/-- C8: every state reached from a freshly constructed collection by a
sequence of mint and transfer calls has the same key set in its three
maps `token_owners`, `token_metadata` and `royalty_configs`. -/
theorem collection_maps_share_keys
    (derive : NftCollection → NftMetadata → TokenId) (nm : String)
    (fc : Address) (bps : Nat) (c0 : NftCollection)
    (h : NftCollection.new nm fc bps = .ok c0) (ops : List Op) :
    sameKeySets (runOps derive c0 ops) := by
  have h0 : sameKeySets c0 := by
    unfold NftCollection.new at h
    by_cases hb : 10000 < bps
    · simp [hb] at h
    · simp [hb] at h
      rw [← h]
      exact ⟨rfl, rfl⟩
  exact runOps_sameKeySets h0 ops

theorem collection_maps_share_keys_witness :
    sameKeySets (runOps deriveCount emptyCollection
      [Op.mintOp ⟨1⟩ sampleMeta (some sampleRoyalty),
       Op.transferOp ⟨1⟩ 0 1 2 (some 1000000)]) :=
  collection_maps_share_keys deriveCount "Test Collection" 9 10
    emptyCollection (by decide)
    [Op.mintOp ⟨1⟩ sampleMeta (some sampleRoyalty),
     Op.transferOp ⟨1⟩ 0 1 2 (some 1000000)]

/-- C3: every sequence of successful mint calls on one collection returns
pairwise distinct token ids, and immediately after each successful mint
the recorded owner of the new token is that token's `metadata.creator`. -/
theorem mint_uniqueness_and_creator_ownership
    (derive : NftCollection → NftMetadata → TokenId) (c : NftCollection)
    (args : List (TxContext × NftMetadata × Option RoyaltyConfig)) :
    (mintChain derive c args).1.Nodup ∧
    ∀ ctx m rc tid c2, c.mint derive ctx m rc = (.ok tid, c2) →
      c2.owner_of tid = some m.creator := by
  refine ⟨(mintChain_fresh derive args c).1, ?_⟩
  intro ctx m rc tid c2 h
  exact (mint_ok_owner h).2

theorem mint_uniqueness_and_creator_ownership_witness :
    (mintChain deriveCount emptyCollection
      [(⟨1⟩, sampleMeta, none), (⟨1⟩, sampleMeta, some sampleRoyalty)]).1.Nodup ∧
    ((emptyCollection.mint deriveCount ⟨1⟩ sampleMeta none).2).owner_of 0 =
      some 1 :=
  ⟨(mint_uniqueness_and_creator_ownership deriveCount emptyCollection
      [(⟨1⟩, sampleMeta, none), (⟨1⟩, sampleMeta, some sampleRoyalty)]).1,
   (mint_uniqueness_and_creator_ownership deriveCount emptyCollection []).2
     ⟨1⟩ sampleMeta none 0
     ((emptyCollection.mint deriveCount ⟨1⟩ sampleMeta none).2) (by decide)⟩

/-- C6 counterexample: a transfer attempt on a non-transferable token made
with a stated sender that is not the owner returns `Unauthorized`, not
`NotTransferable`, refuting the claim that every transfer attempt on such
a token returns `Err(NotTransferable)`. -/
theorem nontransferable_counterexample :
    frozenCollection.metadata_of 0 = some frozenMeta ∧
    frozenMeta.transferable = false ∧
    (frozenCollection.transfer ⟨2⟩ 0 2 3 none).1 = .error .Unauthorized ∧
    (frozenCollection.transfer ⟨2⟩ 0 2 3 none).1 ≠ .error .NotTransferable :=
  ⟨by decide, by decide, by decide, by decide⟩

/-- C6 (amended): if a token's stored metadata has `transferable == false`,
then after any further sequence of operations no transfer of it succeeds
and every attempt leaves the collection unchanged; an attempt that passes
both authorization checks fails with `NotTransferable`. -/
theorem nontransferable_never_succeeds
    (derive : NftCollection → NftMetadata → TokenId) (c : NftCollection)
    (tid : TokenId) (md : NftMetadata) (hmd : c.metadata_of tid = some md)
    (htr : md.transferable = false) (ops : List Op) (ctx : TxContext)
    (fr dest : Address) (price : Option Amount) :
    (∀ outcome,
      ((runOps derive c ops).transfer ctx tid fr dest price).1 ≠
        .ok outcome) ∧
    ((runOps derive c ops).transfer ctx tid fr dest price).2 =
      runOps derive c ops ∧
    (ctx.caller = fr →
      (runOps derive c ops).owner_of tid = some fr →
      ((runOps derive c ops).transfer ctx tid fr dest price).1 =
        .error .NotTransferable) := by
  have hmd2 : alookup c.tokenMetadata tid = some md := hmd
  have hmd3 : alookup (runOps derive c ops).tokenMetadata tid = some md :=
    runOps_metadata_persists hmd2 ops
  have hnotok : ∀ outcome,
      ((runOps derive c ops).transfer ctx tid fr dest price).1 ≠
        .ok outcome := by
    intro outcome hok
    obtain ⟨_, _, ⟨md2, hmd4, htr2⟩, _, _⟩ := transfer_ok_inv (pair_eta_fst hok)
    rw [hmd3] at hmd4
    injection hmd4 with he
    rw [← he] at htr2
    simp [htr] at htr2
  refine ⟨hnotok, ?_, ?_⟩
  · cases hres : ((runOps derive c ops).transfer ctx tid fr dest price).1 with
    | ok outcome => exact absurd hres (hnotok outcome)
    | error e => exact transfer_error_snd hres
  · intro hcall hown
    have hown2 : alookup (runOps derive c ops).tokenOwners tid = some fr := hown
    unfold NftCollection.transfer
    simp [hcall, hown2, hmd3, htr]

theorem nontransferable_never_succeeds_witness :
    ((runOps deriveCount frozenCollection []).transfer ⟨1⟩ 0 1 2 none).1 =
      .error .NotTransferable ∧
    ((runOps deriveCount frozenCollection []).transfer ⟨1⟩ 0 1 2 none).2 =
      runOps deriveCount frozenCollection [] :=
  ⟨(nontransferable_never_succeeds deriveCount frozenCollection 0 frozenMeta
      (by decide) (by decide) [] ⟨1⟩ 1 2 none).2.2 rfl (by decide),
   (nontransferable_never_succeeds deriveCount frozenCollection 0 frozenMeta
      (by decide) (by decide) [] ⟨1⟩ 1 2 none).2.1⟩

end NftContract

namespace NftClient

/-- C9: `get_wallet_nfts` returns exactly the subsequence of
`query_account_tokens(wallet.address())` whose elements have
`token_type == TokenType::Nft`, in the order the query returned them, and
never returns an element of any other token type. -/
theorem get_wallet_nfts_filters_nft_type (c : NftMintClient) :
    c.get_wallet_nfts = .ok c.wallet_nft_query ∧
    List.Sublist c.wallet_nft_query (c.queryAccountTokens c.walletAddress) ∧
    (∀ t, t ∈ c.wallet_nft_query → t.tokenType = TokenType.Nft) ∧
    (∀ t, t ∈ c.queryAccountTokens c.walletAddress →
      t.tokenType = TokenType.Nft → t ∈ c.wallet_nft_query) ∧
    (∀ t, t.tokenType ≠ TokenType.Nft → t ∉ c.wallet_nft_query) ∧
    (∀ t, t.tokenType = TokenType.Nft →
      c.wallet_nft_query.count t =
        (c.queryAccountTokens c.walletAddress).count t) := by
  refine ⟨rfl, ?_, ?_, ?_, ?_, ?_⟩
  · exact List.filter_sublist _
  · intro t ht
    have h2 := (List.mem_filter.mp ht).2
    simpa using h2
  · intro t ht htype
    exact List.mem_filter.mpr ⟨ht, by simp [htype]⟩
  · intro t htype hmem
    have h2 := (List.mem_filter.mp hmem).2
    simp at h2
    exact htype h2
  · intro t htype
    exact List.count_filter (by simp [htype])

theorem get_wallet_nfts_filters_nft_type_witness :
    dummyClient.get_wallet_nfts = .ok dummyClient.wallet_nft_query ∧
    List.Sublist dummyClient.wallet_nft_query
      (dummyClient.queryAccountTokens dummyClient.walletAddress) :=
  ⟨(get_wallet_nfts_filters_nft_type dummyClient).1,
   (get_wallet_nfts_filters_nft_type dummyClient).2.1⟩

/-- C10: `mint_nft` and `transfer_nft` return `Ok(h)` with `h` exactly the
hash produced by `submit_transaction` if and only if the awaited receipt
reports success; when the receipt reports failure they return an error and
no hash. -/
theorem client_hash_iff_receipt_success (c : NftMintClient)
    (collection : Address) (metadata : NftContract.NftMetadata)
    (rc : Option NftContract.RoyaltyConfig) (tokenId : Hash)
    (recipient : Address) (salePrice : Option Amount) :
    (∀ hsh, c.mint_nft collection metadata rc = .ok hsh ↔
       ∃ r, c.submitTransaction (c.mintTx collection metadata rc) = .ok hsh ∧
            c.waitForTx hsh = .ok r ∧ r.status.is_success = true) ∧
    (∀ hsh r, c.submitTransaction (c.mintTx collection metadata rc) = .ok hsh →
       c.waitForTx hsh = .ok r → r.status.is_success = false →
       c.mint_nft collection metadata rc =
         .error "NFT minting transaction failed") ∧
    (∀ hsh, c.transfer_nft tokenId recipient salePrice = .ok hsh ↔
       ∃ r, c.submitTransaction (c.transferTx tokenId recipient salePrice) =
              .ok hsh ∧
            c.waitForTx hsh = .ok r ∧ r.status.is_success = true) ∧
    (∀ hsh r,
       c.submitTransaction (c.transferTx tokenId recipient salePrice) =
         .ok hsh →
       c.waitForTx hsh = .ok r → r.status.is_success = false →
       c.transfer_nft tokenId recipient salePrice =
         .error "NFT transfer transaction failed") := by
  refine ⟨?_, ?_, ?_, ?_⟩
  · intro hsh
    constructor
    · intro hok
      unfold NftMintClient.mint_nft at hok
      obtain ⟨h1, hsub, hrest⟩ := NftContract.except_bind_ok hok
      obtain ⟨r, hwait, hif⟩ := NftContract.except_bind_ok hrest
      cases hb : r.status.is_success with
      | false => rw [TxStatus.is_success] at hb; simp [TxStatus.is_success, hb] at hif
      | true =>
          simp [TxStatus.is_success] at hb
          simp [TxStatus.is_success, hb] at hif
          subst hif
          exact ⟨r, hsub, hwait, by simp [TxStatus.is_success, hb]⟩
    · rintro ⟨r, hsub, hwait, hs⟩
      simp [NftMintClient.mint_nft, hsub, hwait, hs, Bind.bind, Except.bind]
  · intro hsh r hsub hwait hs
    simp [NftMintClient.mint_nft, hsub, hwait, hs, Bind.bind, Except.bind]
  · intro hsh
    constructor
    · intro hok
      unfold NftMintClient.transfer_nft at hok
      obtain ⟨h1, hsub, hrest⟩ := NftContract.except_bind_ok hok
      obtain ⟨r, hwait, hif⟩ := NftContract.except_bind_ok hrest
      cases hb : r.status.is_success with
      | false => rw [TxStatus.is_success] at hb; simp [TxStatus.is_success, hb] at hif
      | true =>
          simp [TxStatus.is_success] at hb
          simp [TxStatus.is_success, hb] at hif
          subst hif
          exact ⟨r, hsub, hwait, by simp [TxStatus.is_success, hb]⟩
    · rintro ⟨r, hsub, hwait, hs⟩
      simp [NftMintClient.transfer_nft, hsub, hwait, hs, Bind.bind, Except.bind]
  · intro hsh r hsub hwait hs
    simp [NftMintClient.transfer_nft, hsub, hwait, hs, Bind.bind, Except.bind]

theorem client_hash_iff_receipt_success_witness :
    dummyClient.mint_nft 3 NftContract.sampleMeta none = .ok 1 ∧
    failingClient.transfer_nft 1 2 none =
      .error "NFT transfer transaction failed" :=
  ⟨((client_hash_iff_receipt_success dummyClient 3 NftContract.sampleMeta none
      1 2 none).1 1).mpr
     ⟨{ status := { success := true } }, rfl, rfl, rfl⟩,
   (client_hash_iff_receipt_success failingClient 3 NftContract.sampleMeta none
      1 2 none).2.2.2 1 { status := { success := false } } rfl rfl rfl⟩

end NftClient
